import Mathlib

/-!
Verification development for the docTR-Labeler annotation tool.

The Python source is shallowly embedded over exact rational arithmetic:
Python float values are modelled as rationals, Python int() as truncation
toward zero, Python floor division as mathematical floor, and Python round
as round-half-to-even.  External OpenCV routines (contour extraction,
minimum-area rectangle, box corner computation) are treated as oracle
parameters supplied through an environment structure; an extraction result
of none models an exception raised inside the OpenCV pipeline for that
region (for example cv2.imread returning None and cv2.resize raising).
-/

namespace DocTRLabeler

/-- Python int() applied to a float value: truncation toward zero. -/
def pyInt (q : ℚ) : ℤ :=
  q.num.tdiv (q.den : ℤ)

/-- Mathematical floor of a rational, modelling Python floor division. -/
def pyFloor (q : ℚ) : ℤ :=
  q.num.fdiv (q.den : ℤ)

/-- Python round() on a float value: round half to even. -/
def pyRound (q : ℚ) : ℤ :=
  let f := pyFloor q
  let r := q - (f : ℚ)
  if r < 1/2 then f
  else if (1 : ℚ)/2 < r then f + 1
  else if f % 2 = 0 then f else f + 1

/-- Python round(x, 1): round to one decimal digit, half to even. -/
def pyRound1 (q : ℚ) : ℚ :=
  (pyRound (q * 10) : ℚ) / 10

/-- A rational that carries an integer value (denominator one). -/
def isIntQ (q : ℚ) : Prop :=
  q.den = 1

instance (q : ℚ) : Decidable (isIntQ q) := by
  unfold isIntQ; infer_instance

/-- All coordinates of a point list are integer valued. -/
def intPts (l : List (ℚ × ℚ)) : Prop :=
  ∀ c ∈ l, isIntQ c.1 ∧ isIntQ c.2

instance (l : List (ℚ × ℚ)) : Decidable (intPts l) := by
  unfold intPts; exact List.decidableBAll _ l

/-- Embed a list of integer pairs as rational coordinate pairs. -/
def intPairs (l : List (ℤ × ℤ)) : List (ℚ × ℚ) :=
  l.map (fun c => ((c.1 : ℚ), (c.2 : ℚ)))

/-!
Region entity: components/polygon.py, class Polygon.
pt_coords are the display-space coordinates, original_coords the
canonical (original, unscaled image space) coordinates.  Only the data
fields touched by the verified operations are modelled; canvas widget
bookkeeping (colors, radii, event bindings) is omitted.
-/

structure Polygon where
  pt_coords : List (ℚ × ℚ)
  original_coords : List (ℚ × ℚ)
  select_poly : Bool
  text : String
  poly_type : String
  deriving Repr, DecidableEq

/-- Polygon.update_polygon: writes both coordinate lists back as Python
ints, truncating any intermediate float coordinates. -/
def update_polygon (p : Polygon) : Polygon :=
  { p with
    pt_coords := p.pt_coords.map (fun c => ((pyInt c.1 : ℚ), (pyInt c.2 : ℚ)))
    original_coords := p.original_coords.map (fun c => ((pyInt c.1 : ℚ), (pyInt c.2 : ℚ))) }

/-!
Image session: views/canvas.py, class ImageOnCanvas.
-/

structure Canvas where
  scale_factor : ℚ
  polygons : List Polygon
  img_name : String
  img_height : ℤ
  img_width : ℤ
  img_hash : String
  deriving Repr, DecidableEq

/-- Display coordinates computed from canonical coordinates the way
ImageOnCanvas.apply_zoom computes them: int(x * scale_factor). -/
def displayFromCanonical (s : ℚ) (canon : List (ℚ × ℚ)) : List (ℚ × ℚ) :=
  canon.map (fun c => ((pyInt (c.1 * s) : ℚ), (pyInt (c.2 * s) : ℚ)))

/-- Modelled from the spec: the display point formula the specification
states for zooming, round(x * s) per coordinate, with Python round
semantics.  Used only to compare the specified formula against the
implemented one. -/
def specDisplayFromCanonical (s : ℚ) (canon : List (ℚ × ℚ)) : List (ℚ × ℚ) :=
  canon.map (fun c => ((pyRound (c.1 * s) : ℚ), (pyRound (c.2 * s) : ℚ)))

/-- ImageOnCanvas.apply_zoom, effect on one polygon: recompute pt_coords
from original_coords at the current scale factor, then update_polygon
(draw_points rewrites the same coordinates and is the identity here). -/
def apply_zoom_poly (s : ℚ) (p : Polygon) : Polygon :=
  update_polygon { p with pt_coords := displayFromCanonical s p.original_coords }

/-- ImageOnCanvas.apply_zoom over the whole session. -/
def apply_zoom (c : Canvas) : Canvas :=
  { c with polygons := c.polygons.map (apply_zoom_poly c.scale_factor) }

/-- The zoom bounds read from the environment in ImageOnCanvas.zoom,
already clamped (max capped at 2.0, min capped at 0.1). -/
structure ZoomBounds where
  max_zoom : ℚ
  min_zoom : ℚ
  deriving Repr, DecidableEq

/-- The two zoom key groups handled by ImageOnCanvas.zoom. -/
inductive ZoomDir where
  | zoomIn : ZoomDir
  | zoomOut : ZoomDir
  deriving Repr, DecidableEq

/-- Scale factor update of ImageOnCanvas.zoom: step 0.1, rounded to one
decimal, only taken while strictly inside the bound. -/
def zoomScale (b : ZoomBounds) (d : ZoomDir) (sf : ℚ) : ℚ :=
  match d with
  | .zoomIn => if sf < b.max_zoom then pyRound1 (sf + 1/10) else sf
  | .zoomOut => if b.min_zoom < sf then pyRound1 (sf - 1/10) else sf

/-- ImageOnCanvas.zoom: update the scale factor and, if it changed,
apply the zoom to every polygon. -/
def zoom (b : ZoomBounds) (d : ZoomDir) (c : Canvas) : Canvas :=
  let sf := zoomScale b d c.scale_factor
  if sf ≠ c.scale_factor then apply_zoom { c with scale_factor := sf } else c

/-!
Persistence: ImageOnCanvas.save_json and ImageOnCanvas.final_save.
-/

/-- The content of one per-image snapshot entry. -/
structure SnapshotData where
  img_dimensions : ℤ × ℤ
  img_hash : String
  polygons : List (List (ℤ × ℤ))
  labels : List String
  types : List String
  deriving Repr, DecidableEq

/-- Python `a or b` on strings: b when a is empty. -/
def pyOrStr (a b : String) : String :=
  if a = "" then b else a

/-- Result of ImageOnCanvas.save_json: the raised integrity error, the
sentinel return with no file write, or a written snapshot file. -/
inductive SaveResult where
  | integrityError (msg : String) : SaveResult
  | noWrite (msg : String) : SaveResult
  | wrote (file_base : String) (data : SnapshotData) : SaveResult
  deriving Repr, DecidableEq

/-- ImageOnCanvas.save_json: filter polygons with nonempty pt_coords,
serialize each as floor(display / scale_factor) per coordinate with its
label and type, check the parallel list lengths the way the chained
Python comparison does, return the sentinel when nothing remains, and
otherwise write the snapshot keyed by the image name. -/
def save_json (c : Canvas) : SaveResult :=
  let pdata := (c.polygons.filter (fun p => !p.pt_coords.isEmpty)).map (fun p =>
    (p.pt_coords.map (fun q => (pyFloor (q.1 / c.scale_factor), pyFloor (q.2 / c.scale_factor))),
     pyOrStr p.text "", pyOrStr p.poly_type "words"))
  let filtered_polygons := pdata.map (fun e => e.1)
  let labels := pdata.map (fun e => e.2.1)
  let types := pdata.map (fun e => e.2.2)
  if filtered_polygons.length ≠ labels.length ∧ labels.length ≠ types.length then
    .integrityError "Length of polygons, labels and types do not match"
  else if filtered_polygons.isEmpty then
    .noWrite "--> Nothing to save, because no polygons are present"
  else
    .wrote ((c.img_name.splitOn ".").headD "" ++ ".json")
      { img_dimensions := (c.img_height, c.img_width)
        img_hash := c.img_hash
        polygons := filtered_polygons
        labels := labels
        types := types }

/-- Python dict.update with a single-key dictionary: replace the value of
an existing key in place, otherwise append the new key at the end. -/
def dictUpdate (d : List (String × SnapshotData)) (k : String) (v : SnapshotData) :
    List (String × SnapshotData) :=
  if d.any (fun kv => kv.1 = k) then d.map (fun kv => if kv.1 = k then (k, v) else kv)
  else d ++ [(k, v)]

/-- Python dict lookup on the association-list model. -/
def dictGet (d : List (String × SnapshotData)) (k : String) : Option SnapshotData :=
  (d.find? (fun kv => kv.1 = k)).map (fun kv => kv.2)

/-- ImageOnCanvas.final_save: read back every per-image snapshot file, in
listing order, and merge into one dataset those entries whose polygons
list is nonempty, later files overwriting earlier ones at the same key. -/
def final_save (files : List (String × SnapshotData)) : List (String × SnapshotData) :=
  files.foldl
    (fun data f => if !f.2.polygons.isEmpty then dictUpdate data f.1 f.2 else data) []

/-- Characterization of the merge result: the value of the last snapshot
file in listing order that has the given key and a nonempty polygon
list. -/
def lastMatch (files : List (String × SnapshotData)) (k : String) : Option SnapshotData :=
  ((files.reverse.find? (fun f => decide (f.1 = k) && !f.2.polygons.isEmpty)).map
    (fun f => f.2))

/-- A snapshot entry with two polygons, for the merge example. -/
def snapEntryA : SnapshotData :=
  { img_dimensions := (10, 10)
    img_hash := "hashA"
    polygons := [[(0, 0), (4, 0), (4, 4), (0, 4)], [(5, 5), (8, 5), (8, 8), (5, 8)]]
    labels := ["x", "y"]
    types := ["words", "words"] }

/-- A snapshot entry with no polygons, for the merge example. -/
def snapEntryB : SnapshotData :=
  { img_dimensions := (6, 6)
    img_hash := "hashB"
    polygons := []
    labels := []
    types := [] }

/-!
GUI.delete_selected: views/gui.py.  The indices of the selected polygons
are collected by enumeration, then each is popped at position
index - offset where offset counts the removals already done.
-/

/-- The list comprehension collecting indices of selected polygons. -/
def indicesToDelete (polys : List Polygon) : List Nat :=
  ((List.enumFrom 0 polys).filter (fun ip => ip.2.select_poly)).map (fun ip => ip.1)

/-- GUI.delete_selected: pop each collected index adjusted by the number
of polygons already removed. -/
def delete_selected (polys : List Polygon) : List Polygon :=
  (List.enumFrom 0 (indicesToDelete polys)).foldl
    (fun ps oi => ps.eraseIdx (oi.2 - oi.1)) polys

/-- Recursive form of the enumerate-filter index collection, starting the
count at k; proved equal to indicesToDelete below. -/
def selIdxsFrom (k : Nat) : List Polygon → List Nat
  | [] => []
  | p :: l => if p.select_poly then k :: selIdxsFrom (k + 1) l else selIdxsFrom (k + 1) l

/-- Recursive form of the deletion fold: pop each index adjusted by the
count of removals done so far. -/
def delGo : List Polygon → Nat → List Nat → List Polygon
  | l, _, [] => l
  | l, off, i :: is => delGo (l.eraseIdx (i - off)) (off + 1) is

/-!
Auto labeler: automation/auto_labeler.py, class AutoLabeler.  The OCR
predictor output is the exported page/block/line/word tree; only the
fields predict reads are modelled.
-/

structure Word where
  geometry : List (ℚ × ℚ)
  value : String
  objectness_score : ℚ
  deriving Repr, DecidableEq

structure Line where
  words : List Word
  deriving Repr, DecidableEq

structure Block where
  lines : List Line
  deriving Repr, DecidableEq

structure Page where
  dimensions : ℤ × ℤ
  blocks : List Block
  deriving Repr, DecidableEq

/-- AutoLabeler._to_absolute: a two-point geometry is an axis-aligned box
expanded to four corners with int(round(coord * size)); any other
geometry maps point for point with int(coord * size). -/
def to_absolute (geom : List (ℚ × ℚ)) (img_shape : ℤ × ℤ) : List (ℤ × ℤ) :=
  let h := img_shape.1
  let w := img_shape.2
  match geom with
  | [(xmin, ymin), (xmax, ymax)] =>
      let xmin' := pyRound ((w : ℚ) * xmin)
      let xmax' := pyRound ((w : ℚ) * xmax)
      let ymin' := pyRound ((h : ℚ) * ymin)
      let ymax' := pyRound ((h : ℚ) * ymax)
      [(xmin', ymin'), (xmax', ymin'), (xmax', ymax'), (xmin', ymax')]
  | _ => geom.map (fun pt => (pyInt (pt.1 * (w : ℚ)), pyInt (pt.2 * (h : ℚ))))

/-- AutoLabeler.predict: walk pages, blocks, lines and words in order,
appending the absolute geometry and the text of every word whose
objectness score strictly exceeds the threshold. -/
def predict (thr : ℚ) (pages : List Page) : List (List (ℤ × ℤ)) × List String :=
  pages.foldl
    (fun acc page =>
      page.blocks.foldl
        (fun acc block =>
          block.lines.foldl
            (fun acc line =>
              line.words.foldl
                (fun acc word =>
                  if thr < word.objectness_score then
                    (acc.1 ++ [to_absolute word.geometry page.dimensions],
                     acc.2 ++ [word.value])
                  else acc)
                acc)
            acc)
        acc)
    ([], [])

/-- Every word of a block, in traversal order. -/
def blockWords (b : Block) : List Word :=
  (b.lines.map (fun l => l.words)).flatten

/-- Every word of a page paired with the page dimensions, in traversal
order. -/
def pageWords (pg : Page) : List ((ℤ × ℤ) × Word) :=
  ((pg.blocks.map blockWords).flatten).map (fun w => (pg.dimensions, w))

/-- The absolute geometry of a dimension-word pair. -/
def predAbs (sw : (ℤ × ℤ) × Word) : List (ℤ × ℤ) :=
  to_absolute sw.2.geometry sw.1

/-- All words of all pages in traversal order. -/
def allWords (pages : List Page) : List ((ℤ × ℤ) × Word) :=
  (pages.map pageWords).flatten

/-- The words kept by the objectness filter, in traversal order. -/
def keptWords (thr : ℚ) (pages : List Page) : List ((ℤ × ℤ) × Word) :=
  (allWords pages).filter (fun sw => decide (thr < sw.2.objectness_score))

/-!
Tight box refinement: automation/tight_box.py, class TightBox.
-/

/-- One OpenCV contour: its contourArea value and its point list. -/
structure Contour where
  area : ℚ
  points : List (ℤ × ℤ)
  deriving Repr, DecidableEq

/-- A minimum-area rotated rectangle as returned by cv2.minAreaRect:
center, size and angle. -/
structure Rect where
  center : ℚ × ℚ
  size : ℚ × ℚ
  angle : ℚ
  deriving Repr, DecidableEq

/-- Oracle environment for the OpenCV calls inside TightBox.tight_box.
extract i is the contour list produced for the region at index i by the
imread / resize / fillPoly / cvtColor / threshold / bitwise_and /
findContours pipeline; none models an exception raised inside that
pipeline (for example an unreadable image).  minAreaRect and boxPoints
are the OpenCV geometry routines, the latter including the np.intp
truncation of the corner coordinates. -/
structure CvEnv where
  extract : Nat → Option (List Contour)
  minAreaRect : List (ℤ × ℤ) → Rect
  boxPoints : Rect → List (ℤ × ℤ)

/-- sorted(new_cnts, key=cv2.contourArea, reverse=True)[1:] followed by
the flattening of the remaining contour points. -/
def innerAllPts (cnts : List Contour) : List (ℤ × ℤ) :=
  ((((cnts.mergeSort (fun a b => decide (b.area ≤ a.area))).drop 1).map
    (fun ct => ct.points)).flatten)

/-- The pre-refinement snapshot stored in the undo log: every display
coordinate divided by the scale factor. -/
def origPts (s : ℚ) (p : Polygon) : List (ℚ × ℚ) :=
  p.pt_coords.map (fun pt => (pt.1 / s, pt.2 / s))

/-- The point-update loop of TightBox.tight_box: each display coordinate
becomes the matching expanded-rectangle corner times the scale factor,
then original_coords is recomputed as int(coordinate / scale factor),
then update_polygon truncates the display floats. -/
def refinePoly (s : ℚ) (corners : List (ℤ × ℤ)) (p : Polygon) : Polygon :=
  let moved : Polygon := { p with
    pt_coords := p.pt_coords.zipWith
      (fun (_ : ℚ × ℚ) (c : ℤ × ℤ) => ((c.1 : ℚ) * s, (c.2 : ℚ) * s)) corners }
  update_polygon { moved with
    original_coords := moved.pt_coords.map
      (fun (q : ℚ × ℚ) => ((pyInt (q.1 / s) : ℚ), (pyInt (q.2 / s) : ℚ))) }

/-- One undo record: the position of the polygon in the session list and
its pre-refinement snapshot. -/
abbrev UndoRec := Nat × List (ℚ × ℚ)

/-- Result of a tight_box pass: the polygon list, the undo log
(changed_poly) and whether the pass aborted with an uncaught exception. -/
structure TBResult where
  polys : List Polygon
  log : List UndoRec
  aborted : Bool
  deriving Repr, DecidableEq

/-- Outcome of the OpenCV part of one loop iteration of
TightBox.tight_box: an uncaught exception, a skip for a too-small
rectangle, or a refinement with the expanded rectangle corners. -/
inductive StepOut where
  | crash : StepOut
  | skip : StepOut
  | refined (corners : List (ℤ × ℤ)) : StepOut
  deriving Repr, DecidableEq

/-- The OpenCV part of one loop iteration of TightBox.tight_box for the
region at index i: contour extraction (a failure there is an uncaught
exception), the discard of the largest contour, the minimum-area
rectangle of the remaining contour points (cv2.minAreaRect raises on an
empty point set, again an uncaught exception), the minimum-size check
with floor 2, and the expansion of the rectangle by 2 in each
dimension. -/
def tightBoxStep (env : CvEnv) (i : Nat) : StepOut :=
  match env.extract i with
  | none => .crash
  | some cnts =>
      let allPts := innerAllPts cnts
      if allPts = [] then .crash
      else
        let r := env.minAreaRect allPts
        if r.size.1 < 2 ∨ r.size.2 < 2 then .skip
        else .refined (env.boxPoints ⟨r.center, (r.size.1 + 2, r.size.2 + 2), r.angle⟩)

/-- The two conditions under which the OpenCV part of one iteration
raises an uncaught exception: the extraction pipeline itself fails, or
no inner contours remain so cv2.minAreaRect is applied to an empty point
set. -/
def extractionFails (env : CvEnv) (i : Nat) : Prop :=
  env.extract i = none ∨ ∃ cnts, env.extract i = some cnts ∧ innerAllPts cnts = []

/-- The loop of TightBox.tight_box over the remaining polygons, with i
the index of the next polygon in the session list.  For a selected
polygon the undo record is appended first, before any OpenCV work; a
crash aborts the whole pass, leaving the remaining polygons unprocessed
but keeping the records already appended; a skip keeps the polygon and
moves on; a refinement writes the expanded rectangle into the polygon. -/
def tightBoxGo (env : CvEnv) (s : ℚ) : Nat → List Polygon → List UndoRec → TBResult
  | _, [], log => ⟨[], log, false⟩
  | i, p :: rest, log =>
    if p.select_poly then
      let log1 := log ++ [(i, origPts s p)]
      match tightBoxStep env i with
      | .crash => ⟨p :: rest, log1, true⟩
      | .skip =>
          let res := tightBoxGo env s (i + 1) rest log1
          ⟨p :: res.polys, res.log, res.aborted⟩
      | .refined corners =>
          let res := tightBoxGo env s (i + 1) rest log1
          ⟨refinePoly s corners p :: res.polys, res.log, res.aborted⟩
    else
      let res := tightBoxGo env s (i + 1) rest log
      ⟨p :: res.polys, res.log, res.aborted⟩

/-- TightBox.tight_box on a session, starting from the undo log already
held by the TightBox instance. -/
def tight_box (env : CvEnv) (s : ℚ) (polys : List Polygon) (log : List UndoRec) : TBResult :=
  tightBoxGo env s 0 polys log

/-- Replace the element at one position of a list. -/
def modifyIdx (f : Polygon → Polygon) : Nat → List Polygon → List Polygon
  | _, [] => []
  | 0, a :: l => f a :: l
  | n + 1, a :: l => a :: modifyIdx f n l

/-- The restore loop of TightBox.discard_tight_box for one undo record:
each display coordinate becomes the snapshot value times the scale
factor, then update_polygon truncates; original_coords is not touched by
the restore loop. -/
def restorePoly (s : ℚ) (orig : List (ℚ × ℚ)) (p : Polygon) : Polygon :=
  update_polygon { p with
    pt_coords := p.pt_coords.zipWith (fun _ o => (o.1 * s, o.2 * s)) orig }

/-- TightBox.discard_tight_box: restore every polygon recorded in the
undo log and clear the log. -/
def discard_tight_box (s : ℚ) (polys : List Polygon) (log : List UndoRec) :
    List Polygon × List UndoRec :=
  (log.foldl (fun ps rec => modifyIdx (restorePoly s rec.2) rec.1 ps) polys, [])

/-!
GUI wiring of the refiner: views/gui.py, GUI.make_tight and
GUI.discard_tight.
-/

/-- The TightBox instance held by the GUI; only its undo log matters. -/
structure TB where
  changed_poly : List UndoRec
  deriving Repr, DecidableEq

structure GuiState where
  canvas : Canvas
  tight_box_obj : Option TB
  deriving Repr, DecidableEq

/-- GUI.deselect_all. -/
def deselect_all (c : Canvas) : Canvas :=
  { c with polygons := c.polygons.map (fun p => { p with select_poly := false }) }

/-- GUI.make_tight: construct a fresh TightBox (empty undo log), run the
pass, keep the new instance as tight_box_obj, and deselect all polygons
afterwards. -/
def make_tight (env : CvEnv) (g : GuiState) : GuiState :=
  let r := tight_box env g.canvas.scale_factor g.canvas.polygons []
  { canvas := deselect_all { g.canvas with polygons := r.polys },
    tight_box_obj := some ⟨r.log⟩ }

/-- GUI.discard_tight: call discard_tight_box on the held instance and
drop it; with no instance the AttributeError is swallowed and nothing
happens. -/
def discard_tight (g : GuiState) : GuiState :=
  match g.tight_box_obj with
  | none => g
  | some tb =>
      { canvas := { g.canvas with
          polygons := (discard_tight_box g.canvas.scale_factor g.canvas.polygons
            tb.changed_poly).1 },
        tight_box_obj := none }

/-!
Invariants of the coordinate model.
-/

/-- The coordinate-model invariant: every canonical point list is integer
valued and every display list is derived from it at the current scale. -/
def Derived (c : Canvas) : Prop :=
  ∀ p ∈ c.polygons, intPts p.original_coords ∧
    p.pt_coords = displayFromCanonical c.scale_factor p.original_coords

instance (c : Canvas) : Decidable (Derived c) := by
  unfold Derived; exact List.decidableBAll _ c.polygons

/-- The weaker precondition actually used by the zoom lemmas: every
canonical point list is integer valued. -/
def IntCanon (c : Canvas) : Prop :=
  ∀ p ∈ c.polygons, intPts p.original_coords

instance (c : Canvas) : Decidable (IntCanon c) := by
  unfold IntCanon; exact List.decidableBAll _ c.polygons

/-!
Concrete objects used by the witnesses and counterexamples.
-/

/-- A four-corner quadrilateral in canonical coordinates. -/
def demoQuad : List (ℤ × ℤ) :=
  [(1, 1), (5, 1), (5, 5), (1, 5)]

/-- A selected region whose display and canonical points agree, as they
do at scale factor one. -/
def demoPoly : Polygon :=
  { pt_coords := intPairs demoQuad
    original_coords := intPairs demoQuad
    select_poly := true
    text := ""
    poly_type := "words" }

/-- The default zoom bounds: max 1.5, min 0.5. -/
def demoBounds : ZoomBounds :=
  ⟨3/2, 1/2⟩

/-- A one-region session at scale factor one. -/
def demoCanvas : Canvas :=
  { scale_factor := 1
    polygons := [demoPoly]
    img_name := "img1.jpg"
    img_height := 10
    img_width := 10
    img_hash := "h1" }

/-- Three predictor words with objectness scores 0.9, 0.5 and 0.81. -/
def demoWords : List Word :=
  [{ geometry := [(1/10, 1/10), (3/10, 1/10), (3/10, 2/10), (1/10, 2/10)]
     value := "w0", objectness_score := 9/10 },
   { geometry := [(2/10, 2/10), (4/10, 2/10), (4/10, 3/10), (2/10, 3/10)]
     value := "w1", objectness_score := 1/2 },
   { geometry := [(0, 0), (1/2, 0), (1/2, 1/2), (0, 1/2)]
     value := "w2", objectness_score := 81/100 }]

/-- A one-page predictor export holding the three demo words. -/
def demoPages : List Page :=
  [{ dimensions := (10, 10)
     blocks := [{ lines := [{ words := demoWords }] }] }]

/-- A session with no regions at all. -/
def emptyCanvas : Canvas :=
  { scale_factor := 1
    polygons := []
    img_name := "img0.png"
    img_height := 8
    img_width := 6
    img_hash := "h0" }

/-- A second selected region, distinct from demoPoly. -/
def demoPoly2 : Polygon :=
  { pt_coords := intPairs [(2, 2), (6, 2), (6, 6), (2, 6)]
    original_coords := intPairs [(2, 2), (6, 2), (6, 6), (2, 6)]
    select_poly := true
    text := "t"
    poly_type := "words" }

/-- demoPoly with the selection flag cleared. -/
def demoPolyU : Polygon :=
  { demoPoly with select_poly := false }

/-- The background contour, largest by area. -/
def outerContour : Contour :=
  { area := 100, points := [(0, 0), (9, 0), (9, 9), (0, 9)] }

/-- A small inner contour. -/
def innerContourA : Contour :=
  { area := 10, points := [(3, 3), (4, 4)] }

/-- An OpenCV environment whose minimum-area rectangle falls below the
minimum-size floor. -/
def envSmall : CvEnv :=
  { extract := fun _ => some [outerContour, innerContourA]
    minAreaRect := fun _ => { center := (7/2, 7/2), size := (1, 1), angle := 0 }
    boxPoints := fun _ => [(3, 3), (4, 3), (4, 4), (3, 4)] }

/-- An OpenCV environment that refines every region to a fixed expanded
rectangle. -/
def envRefine : CvEnv :=
  { extract := fun _ => some [outerContour, innerContourA]
    minAreaRect := fun _ => { center := (5, 5), size := (6, 6), angle := 0 }
    boxPoints := fun _ => [(1, 1), (9, 1), (9, 9), (1, 9)] }

/-- An OpenCV environment whose extraction finds only the background
contour for region 0 (so no inner contours remain) and a refinable
contour set for every other region. -/
def envNoInner : CvEnv :=
  { extract := fun i =>
      if i = 0 then some [outerContour] else some [outerContour, innerContourA]
    minAreaRect := fun _ => { center := (5, 5), size := (6, 6), angle := 0 }
    boxPoints := fun _ => [(1, 1), (9, 1), (9, 9), (1, 9)] }

/-- A GUI state with one unselected and one selected region. -/
def demoGui : GuiState :=
  { canvas :=
      { scale_factor := 1
        polygons := [demoPolyU, demoPoly2]
        img_name := "img1.jpg"
        img_height := 10
        img_width := 10
        img_hash := "h1" }
    tight_box_obj := none }

/-!
Arithmetic helper lemmas.
-/

theorem pyInt_intCast (n : ℤ) : pyInt (n : ℚ) = n := by
  simp [pyInt, Rat.num_intCast, Rat.den_intCast]

theorem isIntQ_intCast (n : ℤ) : isIntQ (n : ℚ) :=
  Rat.den_intCast n

theorem pyInt_eq_self (q : ℚ) (h : isIntQ q) : (pyInt q : ℚ) = q := by
  unfold pyInt
  unfold isIntQ at h
  rw [h]
  simp only [Nat.cast_one, Int.tdiv_one]
  exact (Rat.den_eq_one_iff q).mp h

theorem map_id_of_mem {α : Type} (l : List α) (f : α → α) (h : ∀ a ∈ l, f a = a) :
    l.map f = l := by
  rw [List.map_congr_left h]
  simp

/-!
C1 support: the display points of every polygon stay the truncated
product of the canonical points with the current scale factor, across
arbitrary sequences of zoom operations.
-/

theorem intPts_displayFromCanonical (s : ℚ) (canon : List (ℚ × ℚ)) :
    intPts (displayFromCanonical s canon) := by
  intro c hc
  unfold displayFromCanonical at hc
  rcases List.mem_map.mp hc with ⟨a, _, rfl⟩
  exact ⟨isIntQ_intCast _, isIntQ_intCast _⟩

theorem intPairs_intPts (l : List (ℤ × ℤ)) : intPts (intPairs l) := by
  intro c hc
  rcases List.mem_map.mp hc with ⟨a, _, rfl⟩
  exact ⟨isIntQ_intCast _, isIntQ_intCast _⟩

theorem update_polygon_of_intPts (p : Polygon) (h1 : intPts p.pt_coords)
    (h2 : intPts p.original_coords) : update_polygon p = p := by
  unfold update_polygon
  have e1 : p.pt_coords.map (fun c => ((pyInt c.1 : ℚ), (pyInt c.2 : ℚ))) = p.pt_coords := by
    apply map_id_of_mem
    intro a ha
    rcases h1 a ha with ⟨ha1, ha2⟩
    rw [pyInt_eq_self _ ha1, pyInt_eq_self _ ha2]
  have e2 : p.original_coords.map (fun c => ((pyInt c.1 : ℚ), (pyInt c.2 : ℚ)))
      = p.original_coords := by
    apply map_id_of_mem
    intro a ha
    rcases h2 a ha with ⟨ha1, ha2⟩
    rw [pyInt_eq_self _ ha1, pyInt_eq_self _ ha2]
  cases p
  simp only at e1 e2
  simp [e1, e2]

theorem apply_zoom_poly_eq (s : ℚ) (p : Polygon) (h : intPts p.original_coords) :
    apply_zoom_poly s p =
      { p with pt_coords := displayFromCanonical s p.original_coords } := by
  unfold apply_zoom_poly
  exact update_polygon_of_intPts _ (intPts_displayFromCanonical s p.original_coords) h

theorem Derived.intCanon {c : Canvas} (h : Derived c) : IntCanon c :=
  fun p hp => (h p hp).1

theorem apply_zoom_Derived (c : Canvas) (h : IntCanon c) : Derived (apply_zoom c) := by
  intro p hp
  unfold apply_zoom at hp
  rcases List.mem_map.mp hp with ⟨q, hq, rfl⟩
  have hint := h q hq
  rw [apply_zoom_poly_eq _ _ hint]
  exact ⟨hint, rfl⟩

theorem apply_zoom_orig (c : Canvas) (h : IntCanon c) :
    (apply_zoom c).polygons.map (fun p => p.original_coords)
      = c.polygons.map (fun p => p.original_coords) := by
  unfold apply_zoom
  simp only [List.map_map]
  apply List.map_congr_left
  intro p hp
  have hint := h p hp
  simp [Function.comp, apply_zoom_poly_eq _ _ hint]

theorem zoom_Derived (b : ZoomBounds) (d : ZoomDir) (c : Canvas) (h : Derived c) :
    Derived (zoom b d c) ∧
      (zoom b d c).polygons.map (fun p => p.original_coords)
        = c.polygons.map (fun p => p.original_coords) := by
  unfold zoom
  by_cases hs : zoomScale b d c.scale_factor ≠ c.scale_factor
  · rw [if_pos hs]
    have hic : IntCanon { c with scale_factor := zoomScale b d c.scale_factor } := by
      intro p hp
      exact (h p hp).1
    exact ⟨apply_zoom_Derived _ hic, apply_zoom_orig _ hic⟩
  · rw [if_neg hs]
    exact ⟨h, rfl⟩

/-- Claim C1, amended: after any sequence of zoom operations, every
region has its display points recomputed from its canonical points as
int(x * s), int(y * s) (Python int truncation, not round), and the
canonical points themselves are never rewritten from the display points.
Stated for every session satisfying the coordinate-model invariant. -/
theorem C1_display_recomputed_from_canonical (b : ZoomBounds) (c : Canvas)
    (dirs : List ZoomDir) (h : Derived c) :
    Derived (dirs.foldl (fun acc d => zoom b d acc) c) ∧
      (dirs.foldl (fun acc d => zoom b d acc) c).polygons.map (fun p => p.original_coords)
        = c.polygons.map (fun p => p.original_coords) := by
  induction dirs generalizing c with
  | nil => exact ⟨h, rfl⟩
  | cons d ds ih =>
      simp only [List.foldl_cons]
      rcases zoom_Derived b d c h with ⟨h1, h2⟩
      rcases ih (zoom b d c) h1 with ⟨h3, h4⟩
      exact ⟨h3, h4.trans h2⟩

/-- Claim C1, witness for the amended theorem at a concrete session and a
single zoom-out operation. -/
theorem C1_display_recomputed_witness :
    Derived demoCanvas ∧
      Derived ([ZoomDir.zoomOut].foldl (fun acc d => zoom demoBounds d acc) demoCanvas) :=
  ⟨by with_unfolding_all decide,
   (C1_display_recomputed_from_canonical demoBounds demoCanvas [ZoomDir.zoomOut]
      (by with_unfolding_all decide)).1⟩

/-- Claim C1, counterexample to the claim as stated: zooming out once
from scale factor 1 lands on scale factor 0.9, inside the configured
bounds, and the display points the code computes differ from
round(x * s), round(y * s) applied to the canonical points, because the
code truncates with int(). -/
theorem C1_round_counterexample :
    (1/2 ≤ (zoom demoBounds ZoomDir.zoomOut demoCanvas).scale_factor ∧
      (zoom demoBounds ZoomDir.zoomOut demoCanvas).scale_factor ≤ 3/2) ∧
    (zoom demoBounds ZoomDir.zoomOut demoCanvas).polygons.map (fun p => p.pt_coords)
      ≠ (zoom demoBounds ZoomDir.zoomOut demoCanvas).polygons.map (fun p =>
          specDisplayFromCanonical (zoom demoBounds ZoomDir.zoomOut demoCanvas).scale_factor
            p.original_coords) := by
  with_unfolding_all decide

/-- Claim C5: saving a session with zero regions performs no file write
and returns the descriptive nothing-to-save sentinel. -/
theorem C5_save_empty (c : Canvas) (h : c.polygons = []) :
    save_json c = SaveResult.noWrite "--> Nothing to save, because no polygons are present" := by
  unfold save_json
  rw [h]
  rfl

/-- Claim C5, witness at a concrete empty session. -/
theorem C5_save_empty_witness :
    save_json emptyCanvas
      = SaveResult.noWrite "--> Nothing to save, because no polygons are present" :=
  C5_save_empty emptyCanvas rfl

/-!
C8 support: the index-collect-then-pop deletion removes exactly the
selected polygons.
-/

theorem enumFrom_filter_map_eq_selIdxsFrom (l : List Polygon) :
    ∀ k, ((List.enumFrom k l).filter (fun ip => ip.2.select_poly)).map
        (fun ip => ip.1) = selIdxsFrom k l := by
  induction l with
  | nil => intro k; rfl
  | cons p l ih =>
      intro k
      show ((((k, p) :: List.enumFrom (k + 1) l)).filter
        (fun ip => ip.2.select_poly)).map (fun ip => ip.1) = _
      rw [List.filter_cons]
      by_cases hp : p.select_poly
      · simp only [hp, if_pos]
        show k :: _ = _
        rw [ih (k + 1)]
        simp [selIdxsFrom, hp]
      · simp only [hp]
        rw [if_neg (by simp [hp]), ih (k + 1)]
        simp [selIdxsFrom, hp]

theorem enumFrom_foldl_eq_delGo (is : List Nat) :
    ∀ (l : List Polygon) (k : Nat),
      (List.enumFrom k is).foldl (fun ps oi => ps.eraseIdx (oi.2 - oi.1)) l
        = delGo l k is := by
  induction is with
  | nil => intro l k; rfl
  | cons i is ih =>
      intro l k
      show (List.enumFrom (k + 1) is).foldl _ (l.eraseIdx (i - k)) = _
      rw [ih (l.eraseIdx (i - k)) (k + 1)]
      rfl

theorem delete_selected_eq_delGo (polys : List Polygon) :
    delete_selected polys = delGo polys 0 (selIdxsFrom 0 polys) := by
  unfold delete_selected
  rw [show List.enumFrom 0 (indicesToDelete polys)
        = List.enumFrom 0 (selIdxsFrom 0 polys) by
      unfold indicesToDelete
      rw [enumFrom_filter_map_eq_selIdxsFrom polys 0]]
  exact enumFrom_foldl_eq_delGo (selIdxsFrom 0 polys) polys 0

theorem selIdxsFrom_succ (l : List Polygon) :
    ∀ k, selIdxsFrom (k + 1) l = (selIdxsFrom k l).map (fun i => i + 1) := by
  induction l with
  | nil => intro k; rfl
  | cons p l ih =>
      intro k
      by_cases hp : p.select_poly
      · simp [selIdxsFrom, hp, ih (k + 1)]
      · simp [selIdxsFrom, hp, ih (k + 1)]

theorem selIdxsFrom_ge (l : List Polygon) :
    ∀ k, ∀ i ∈ selIdxsFrom k l, k ≤ i := by
  induction l with
  | nil => intro k i hi; cases hi
  | cons p l ih =>
      intro k i hi
      by_cases hp : p.select_poly
      · simp [selIdxsFrom, hp] at hi
        rcases hi with rfl | hi
        · exact Nat.le_refl i
        · exact Nat.le_of_succ_le (ih (k + 1) i hi)
      · simp [selIdxsFrom, hp] at hi
        exact Nat.le_of_succ_le (ih (k + 1) i hi)

theorem selIdxsFrom_pairwise (l : List Polygon) :
    ∀ k, (selIdxsFrom k l).Pairwise (· < ·) := by
  induction l with
  | nil => intro k; exact List.Pairwise.nil
  | cons p l ih =>
      intro k
      by_cases hp : p.select_poly
      · simp only [selIdxsFrom, hp, if_pos]
        exact List.Pairwise.cons
          (fun i hi => Nat.lt_of_succ_le (selIdxsFrom_ge l (k + 1) i hi)) (ih (k + 1))
      · simp only [selIdxsFrom, hp]
        rw [if_neg (by simp [hp])]
        exact ih (k + 1)

theorem delGo_shift (is : List Nat) :
    ∀ (l : List Polygon) (off : Nat),
      delGo l (off + 1) (is.map (fun i => i + 1)) = delGo l off is := by
  induction is with
  | nil => intro l off; rfl
  | cons i is ih =>
      intro l off
      show delGo (l.eraseIdx (i + 1 - (off + 1))) (off + 2) (is.map (fun i => i + 1)) = _
      rw [Nat.succ_sub_succ]
      exact ih (l.eraseIdx (i - off)) (off + 1)

theorem delGo_cons_unselected (is : List Nat) :
    ∀ (x : Polygon) (l : List Polygon) (off : Nat),
      is.Pairwise (· < ·) → (∀ i ∈ is, off ≤ i) →
      delGo (x :: l) off (is.map (fun i => i + 1)) = x :: delGo l off is := by
  induction is with
  | nil => intro x l off _ _; rfl
  | cons i is ih =>
      intro x l off hpw hge
      have hoi : off ≤ i := hge i (List.mem_cons_self i is)
      show delGo ((x :: l).eraseIdx (i + 1 - off)) (off + 1) (is.map (fun i => i + 1)) = _
      have e1 : i + 1 - off = (i - off) + 1 := by omega
      rw [e1]
      show delGo (x :: l.eraseIdx (i - off)) (off + 1) (is.map (fun i => i + 1)) = _
      rw [ih x (l.eraseIdx (i - off)) (off + 1) (List.Pairwise.sublist (by simp) hpw)
        (fun j hj => Nat.succ_le_of_lt
          (Nat.lt_of_le_of_lt hoi (List.rel_of_pairwise_cons hpw hj)))]
      rfl

/-- Claim C8: deleting the selected polygons in one call removes exactly
the selected ones and keeps the unselected ones, whatever their
positions in the list. -/
theorem C8_delete_selected_filter (polys : List Polygon) :
    delete_selected polys = polys.filter (fun p => !p.select_poly) := by
  rw [delete_selected_eq_delGo]
  induction polys with
  | nil => rfl
  | cons p l ih =>
      by_cases hp : p.select_poly
      · show delGo (p :: l) 0 (selIdxsFrom 0 (p :: l)) = _
        simp only [selIdxsFrom, hp, if_pos]
        show delGo ((p :: l).eraseIdx 0) 1 (selIdxsFrom 1 l) = _
        rw [selIdxsFrom_succ l 0]
        show delGo l (0 + 1) ((selIdxsFrom 0 l).map (fun i => i + 1)) = _
        rw [delGo_shift (selIdxsFrom 0 l) l 0, ih]
        simp [List.filter_cons, hp]
      · show delGo (p :: l) 0 (selIdxsFrom 0 (p :: l)) = _
        simp only [selIdxsFrom, hp]
        rw [if_neg (by simp [hp]), selIdxsFrom_succ l 0,
          delGo_cons_unselected (selIdxsFrom 0 l) p l 0 (selIdxsFrom_pairwise l 0)
            (fun i _ => Nat.zero_le i), ih]
        simp [List.filter_cons, hp]

/-!
C6 support: dictionary update and lookup lemmas, and the fold
characterization of the aggregate merge.
-/

theorem dictGet_map_update_other (d : List (String × SnapshotData)) (k k' : String)
    (v : SnapshotData) (h : k' ≠ k) :
    dictGet (d.map (fun kv => if kv.1 = k' then (k', v) else kv)) k = dictGet d k := by
  induction d with
  | nil => rfl
  | cons b d ih =>
      unfold dictGet at *
      by_cases hb : b.1 = k'
      · simp only [List.map_cons, if_pos hb, List.find?]
        rw [show (decide ((k', v).1 = k)) = false by simp [h]]
        rw [show (decide (b.1 = k)) = false by simp [hb, h]]
        exact ih
      · simp only [List.map_cons, if_neg hb, List.find?]
        cases hbk : decide (b.1 = k) with
        | true => rfl
        | false => exact ih

theorem dictGet_map_update_same (d : List (String × SnapshotData)) (k : String)
    (v : SnapshotData) (h : d.any (fun kv => decide (kv.1 = k)) = true) :
    dictGet (d.map (fun kv => if kv.1 = k then (k, v) else kv)) k = some v := by
  induction d with
  | nil => cases h
  | cons b d ih =>
      by_cases hb : b.1 = k
      · unfold dictGet
        simp only [List.map_cons, if_pos hb, List.find?]
        simp
      · unfold dictGet at *
        simp only [List.map_cons, if_neg hb, List.find?]
        rw [show (decide (b.1 = k)) = false by simp [hb]]
        apply ih
        simp only [List.any_cons, Bool.or_eq_true] at h
        rcases h with h | h
        · exact absurd (of_decide_eq_true h) hb
        · exact h

theorem dictGet_append_single_other (d : List (String × SnapshotData)) (k k' : String)
    (v : SnapshotData) (h : k' ≠ k) :
    dictGet (d ++ [(k', v)]) k = dictGet d k := by
  unfold dictGet
  rw [List.find?_append]
  cases hf : d.find? (fun kv => decide (kv.1 = k)) with
  | some b => rfl
  | none =>
      simp only [Option.none_or]
      simp [List.find?, h]

theorem dictGet_dictUpdate_same (d : List (String × SnapshotData)) (k : String)
    (v : SnapshotData) : dictGet (dictUpdate d k v) k = some v := by
  unfold dictUpdate
  by_cases h : d.any (fun kv => decide (kv.1 = k)) = true
  · rw [if_pos h]
    exact dictGet_map_update_same d k v h
  · rw [if_neg h]
    unfold dictGet
    rw [List.find?_append]
    have hn : d.find? (fun kv => decide (kv.1 = k)) = none := by
      rw [List.find?_eq_none]
      intro kv hkv hdec
      exact h (List.any_eq_true.mpr ⟨kv, hkv, hdec⟩)
    rw [hn]
    simp [List.find?]

theorem dictGet_dictUpdate_other (d : List (String × SnapshotData)) (k k' : String)
    (v : SnapshotData) (h : k' ≠ k) :
    dictGet (dictUpdate d k' v) k = dictGet d k := by
  unfold dictUpdate
  by_cases ha : d.any (fun kv => decide (kv.1 = k')) = true
  · rw [if_pos ha]
    exact dictGet_map_update_other d k k' v h
  · rw [if_neg ha]
    exact dictGet_append_single_other d k k' v h

theorem lastMatch_cons (f : String × SnapshotData) (fs : List (String × SnapshotData))
    (k : String) :
    lastMatch (f :: fs) k =
      (lastMatch fs k).or (if f.1 = k ∧ !f.2.polygons.isEmpty then some f.2 else none) := by
  unfold lastMatch
  rw [List.reverse_cons, List.find?_append]
  cases hf : fs.reverse.find? (fun f => decide (f.1 = k) && !f.2.polygons.isEmpty) with
  | some b => rfl
  | none =>
      simp only [Option.none_or, Option.map_none, Option.none_or]
      by_cases hk : f.1 = k ∧ !f.2.polygons.isEmpty
      · rw [if_pos hk]
        have : (decide (f.1 = k) && !f.2.polygons.isEmpty) = true := by
          simp [hk.1, hk.2]
        simp [List.find?, this]
      · rw [if_neg hk]
        have : (decide (f.1 = k) && !f.2.polygons.isEmpty) = false := by
          by_contra hc
          rw [Bool.not_eq_false, Bool.and_eq_true] at hc
          exact hk ⟨of_decide_eq_true hc.1, hc.2⟩
        simp [List.find?, this]

theorem final_save_fold (files : List (String × SnapshotData)) :
    ∀ (acc : List (String × SnapshotData)) (k : String),
      dictGet (files.foldl
          (fun data f => if !f.2.polygons.isEmpty then dictUpdate data f.1 f.2 else data) acc) k
        = (lastMatch files k).or (dictGet acc k) := by
  induction files with
  | nil =>
      intro acc k
      rfl
  | cons f fs ih =>
      intro acc k
      rw [List.foldl_cons, ih, lastMatch_cons, Option.or_assoc]
      congr 1
      by_cases he : f.2.polygons.isEmpty
      · rw [show (!f.2.polygons.isEmpty) = false by simp [he]]
        simp only [Bool.false_eq_true, if_false]
        rw [if_neg (by simp [he])]
        rfl
      · rw [show (!f.2.polygons.isEmpty) = true by simp [he]]
        simp only [if_true]
        by_cases hk : f.1 = k
        · subst hk
          rw [dictGet_dictUpdate_same, if_pos ⟨rfl, by simp [he]⟩]
          rfl
        · rw [dictGet_dictUpdate_other _ _ _ _ hk, if_neg (fun hc => hk hc.1)]
          rfl

/-- Claim C6: the aggregate merge keeps exactly the snapshot entries with
a nonempty polygon list, keyed by image file name, later files
overwriting earlier ones; in particular merging a two-polygon snapshot A
with an empty snapshot B yields a dataset holding only the key of A. -/
theorem C6_final_save_merge :
    (∀ (files : List (String × SnapshotData)) (k : String),
        dictGet (final_save files) k = lastMatch files k) ∧
      final_save [("a.jpg", snapEntryA), ("b.jpg", snapEntryB)] = [("a.jpg", snapEntryA)] := by
  constructor
  · intro files k
    unfold final_save
    rw [final_save_fold files [] k]
    show (lastMatch files k).or none = lastMatch files k
    exact Option.or_none
  · rfl

/-!
C9 support: fold characterizations of the predict traversal, one nesting
level at a time.
-/

theorem predict_words_fold (thr : ℚ) (dims : ℤ × ℤ) (ws : List Word) :
    ∀ acc : List (List (ℤ × ℤ)) × List String,
      ws.foldl (fun acc word =>
          if thr < word.objectness_score then
            (acc.1 ++ [to_absolute word.geometry dims], acc.2 ++ [word.value])
          else acc) acc
        = (acc.1 ++ (ws.filter (fun w => decide (thr < w.objectness_score))).map
              (fun w => to_absolute w.geometry dims),
           acc.2 ++ (ws.filter (fun w => decide (thr < w.objectness_score))).map
              (fun w => w.value)) := by
  induction ws with
  | nil => intro acc; simp
  | cons w ws ih =>
      intro acc
      rw [List.foldl_cons, List.filter_cons]
      by_cases hw : thr < w.objectness_score
      · rw [if_pos hw, ih, if_pos (by simp [hw])]
        simp
      · rw [if_neg hw, ih, if_neg (by simp [hw])]

theorem predict_lines_fold (thr : ℚ) (dims : ℤ × ℤ) (ls : List Line) :
    ∀ acc : List (List (ℤ × ℤ)) × List String,
      ls.foldl (fun acc line =>
          line.words.foldl (fun acc word =>
            if thr < word.objectness_score then
              (acc.1 ++ [to_absolute word.geometry dims], acc.2 ++ [word.value])
            else acc) acc) acc
        = (acc.1 ++ (((ls.map (fun l => l.words)).flatten).filter
              (fun w => decide (thr < w.objectness_score))).map
              (fun w => to_absolute w.geometry dims),
           acc.2 ++ (((ls.map (fun l => l.words)).flatten).filter
              (fun w => decide (thr < w.objectness_score))).map
              (fun w => w.value)) := by
  induction ls with
  | nil => intro acc; simp
  | cons l ls ih =>
      intro acc
      rw [List.foldl_cons, predict_words_fold thr dims l.words acc, ih]
      simp [List.filter_append, List.map_append, List.append_assoc]

theorem predict_blocks_fold (thr : ℚ) (dims : ℤ × ℤ) (bs : List Block) :
    ∀ acc : List (List (ℤ × ℤ)) × List String,
      bs.foldl (fun acc block =>
          block.lines.foldl (fun acc line =>
            line.words.foldl (fun acc word =>
              if thr < word.objectness_score then
                (acc.1 ++ [to_absolute word.geometry dims], acc.2 ++ [word.value])
              else acc) acc) acc) acc
        = (acc.1 ++ (((bs.map blockWords).flatten).filter
              (fun w => decide (thr < w.objectness_score))).map
              (fun w => to_absolute w.geometry dims),
           acc.2 ++ (((bs.map blockWords).flatten).filter
              (fun w => decide (thr < w.objectness_score))).map
              (fun w => w.value)) := by
  induction bs with
  | nil => intro acc; simp
  | cons b bs ih =>
      intro acc
      rw [List.foldl_cons, predict_lines_fold thr dims b.lines acc, ih]
      simp [blockWords, List.filter_append, List.map_append, List.append_assoc]

theorem predict_pages_fold (thr : ℚ) (pages : List Page) :
    ∀ acc : List (List (ℤ × ℤ)) × List String,
      pages.foldl (fun acc page =>
          page.blocks.foldl (fun acc block =>
            block.lines.foldl (fun acc line =>
              line.words.foldl (fun acc word =>
                if thr < word.objectness_score then
                  (acc.1 ++ [to_absolute word.geometry page.dimensions],
                   acc.2 ++ [word.value])
                else acc) acc) acc) acc) acc
        = (acc.1 ++ ((allWords pages).filter
              (fun sw => decide (thr < sw.2.objectness_score))).map predAbs,
           acc.2 ++ ((allWords pages).filter
              (fun sw => decide (thr < sw.2.objectness_score))).map
              (fun sw => sw.2.value)) := by
  induction pages with
  | nil => intro acc; simp [allWords]
  | cons pg pages ih =>
      intro acc
      rw [List.foldl_cons, predict_blocks_fold thr pg.dimensions pg.blocks acc, ih]
      simp only [allWords, List.map_cons, List.flatten_cons, List.filter_append,
        List.map_append, List.append_assoc, pageWords]
      rw [List.filter_map, List.map_map, List.map_map]
      simp only [Prod.mk.injEq, List.append_cancel_left_eq]
      exact ⟨rfl, rfl⟩

/-- Claim C9: predict returns exactly the polygons and texts of the words
whose objectness score strictly exceeds the threshold, in traversal
order; at threshold 0.8 the demo scores 0.9, 0.5, 0.81 keep exactly the
entries at indices 0 and 2. -/
theorem C9_predict_threshold :
    (∀ (thr : ℚ) (pages : List Page),
        predict thr pages
          = ((keptWords thr pages).map predAbs,
             (keptWords thr pages).map (fun sw => sw.2.value))) ∧
      (predict (4/5) demoPages).2 = ["w0", "w2"] := by
  constructor
  · intro thr pages
    unfold predict keptWords
    rw [predict_pages_fold thr pages ([], [])]
    simp
  · with_unfolding_all decide

/-!
Tight-box support: structural lemmas about the refinement loop.
-/

theorem tightBoxGo_length (env : CvEnv) (s : ℚ) (l : List Polygon) :
    ∀ (i : Nat) (log : List UndoRec),
      (tightBoxGo env s i l log).polys.length = l.length := by
  induction l with
  | nil => intro i log; rfl
  | cons p rest ih =>
      intro i log
      by_cases hsel : p.select_poly
      · cases hstep : tightBoxStep env i with
        | crash => simp [tightBoxGo, hsel, hstep]
        | skip => simp [tightBoxGo, hsel, hstep, ih]
        | refined corners => simp [tightBoxGo, hsel, hstep, ih]
      · simp [tightBoxGo, hsel, ih]

theorem tightBoxGo_log_extends (env : CvEnv) (s : ℚ) (l : List Polygon) :
    ∀ (i : Nat) (log : List UndoRec),
      ∃ t, (tightBoxGo env s i l log).log = log ++ t := by
  induction l with
  | nil => intro i log; exact ⟨[], by simp [tightBoxGo]⟩
  | cons p rest ih =>
      intro i log
      by_cases hsel : p.select_poly
      · cases hstep : tightBoxStep env i with
        | crash =>
            refine ⟨[(i, origPts s p)], ?_⟩
            simp [tightBoxGo, hsel, hstep]
        | skip =>
            rcases ih (i + 1) (log ++ [(i, origPts s p)]) with ⟨t, ht⟩
            refine ⟨[(i, origPts s p)] ++ t, ?_⟩
            simp only [tightBoxGo, hsel, hstep, if_true]
            rw [ht]
            simp
        | refined corners =>
            rcases ih (i + 1) (log ++ [(i, origPts s p)]) with ⟨t, ht⟩
            refine ⟨[(i, origPts s p)] ++ t, ?_⟩
            simp only [tightBoxGo, hsel, hstep, if_true]
            rw [ht]
            simp
      · rcases ih (i + 1) log with ⟨t, ht⟩
        refine ⟨t, ?_⟩
        simp only [tightBoxGo, hsel]
        rw [if_neg (by simp [hsel])]
        exact ht

theorem tightBoxGo_append (env : CvEnv) (s : ℚ) (l1 : List Polygon) :
    ∀ (l2 : List Polygon) (i : Nat) (log : List UndoRec),
      tightBoxGo env s i (l1 ++ l2) log =
        if (tightBoxGo env s i l1 log).aborted then
          ⟨(tightBoxGo env s i l1 log).polys ++ l2, (tightBoxGo env s i l1 log).log, true⟩
        else
          ⟨(tightBoxGo env s i l1 log).polys
              ++ (tightBoxGo env s (i + l1.length) l2 (tightBoxGo env s i l1 log).log).polys,
            (tightBoxGo env s (i + l1.length) l2 (tightBoxGo env s i l1 log).log).log,
            (tightBoxGo env s (i + l1.length) l2 (tightBoxGo env s i l1 log).log).aborted⟩ := by
  induction l1 with
  | nil =>
      intro l2 i log
      simp [tightBoxGo]
  | cons p l1 ih =>
      intro l2 i log
      by_cases hsel : p.select_poly
      · cases hstep : tightBoxStep env i with
        | crash =>
            simp [tightBoxGo, hsel, hstep]
        | skip =>
            simp only [List.cons_append, tightBoxGo, hsel, hstep, if_true, List.append_eq]
            rw [ih l2 (i + 1) (log ++ [(i, origPts s p)])]
            by_cases hab : (tightBoxGo env s (i + 1) l1 (log ++ [(i, origPts s p)])).aborted
            · simp [hab, Nat.add_right_comm, Nat.add_assoc]
            · simp [hab, Nat.add_right_comm, Nat.add_assoc]
        | refined corners =>
            simp only [List.cons_append, tightBoxGo, hsel, hstep, if_true, List.append_eq]
            rw [ih l2 (i + 1) (log ++ [(i, origPts s p)])]
            by_cases hab : (tightBoxGo env s (i + 1) l1 (log ++ [(i, origPts s p)])).aborted
            · simp [hab, Nat.add_right_comm, Nat.add_assoc]
            · simp [hab, Nat.add_right_comm, Nat.add_assoc]
      · have hsel' : p.select_poly = false := by simp [hsel]
        simp only [List.cons_append, tightBoxGo, hsel', Bool.false_eq_true, if_false,
          List.append_eq]
        rw [ih l2 (i + 1) log]
        by_cases hab : (tightBoxGo env s (i + 1) l1 log).aborted
        · simp [hab, Nat.add_right_comm, Nat.add_assoc]
        · simp [hab, Nat.add_right_comm, Nat.add_assoc]

/-- Claim C2, amended: a selected region whose minimum-area rectangle has
either dimension below the floor of 2 is skipped with its points left
unchanged, but its undo record, appended before the check, stays in the
undo log.  Stated for a region at any position of the batch, provided
the pass reaches it (no earlier crash). -/
theorem C2_small_rect_skips_but_logs (env : CvEnv) (s : ℚ) (pre post : List Polygon)
    (p : Polygon) (log0 : List UndoRec) (cnts : List Contour)
    (hsel : p.select_poly = true)
    (hpre : (tightBoxGo env s 0 pre log0).aborted = false)
    (hex : env.extract pre.length = some cnts)
    (hne : innerAllPts cnts ≠ [])
    (hsmall : (env.minAreaRect (innerAllPts cnts)).size.1 < 2 ∨
      (env.minAreaRect (innerAllPts cnts)).size.2 < 2) :
    (tight_box env s (pre ++ p :: post) log0).polys[pre.length]? = some p ∧
      (pre.length, origPts s p) ∈ (tight_box env s (pre ++ p :: post) log0).log := by
  have hstep : tightBoxStep env pre.length = StepOut.skip := by
    simp only [tightBoxStep, hex]
    rw [if_neg hne, if_pos hsmall]
  unfold tight_box
  rw [tightBoxGo_append env s pre (p :: post) 0 log0, if_neg (by simp [hpre])]
  simp only [Nat.zero_add, tightBoxGo, hsel, hstep, if_true]
  constructor
  · rw [List.getElem?_append_right (by rw [tightBoxGo_length])]
    rw [tightBoxGo_length]
    simp
  · rcases tightBoxGo_log_extends env s post (pre.length + 1)
      ((tightBoxGo env s 0 pre log0).log ++ [(pre.length, origPts s p)]) with ⟨t, ht⟩
    rw [ht]
    simp

/-- Claim C2, witness for the amended theorem: a single selected region
whose rectangle is 1 by 1 stays unchanged while its snapshot stays in
the undo log. -/
theorem C2_small_rect_witness :
    (tight_box envSmall 1 ([] ++ demoPoly :: []) []).polys[(0 : Nat)]? = some demoPoly ∧
      (0, origPts 1 demoPoly) ∈ (tight_box envSmall 1 ([] ++ demoPoly :: []) []).log :=
  C2_small_rect_skips_but_logs envSmall 1 [] [] demoPoly [] [outerContour, innerContourA]
    (by with_unfolding_all decide) (by with_unfolding_all decide) rfl
    (by with_unfolding_all decide) (by with_unfolding_all decide)

/-- Claim C2, counterexample to the claim as stated: on a too-small
rectangle the region is indeed left unchanged, but an undo record for it
is appended to the undo log all the same. -/
theorem C2_undo_record_counterexample :
    (tight_box envSmall 1 [demoPoly] []).polys = [demoPoly] ∧
      (tight_box envSmall 1 [demoPoly] []).log ≠ [] := by
  with_unfolding_all decide

/-- Claim C3, amended: a selected region whose extraction fails or whose
masked image yields no inner contours makes the whole pass abort with an
uncaught exception: the region and all later regions keep their points,
but the undo record of this region is retained, and no later region is
processed.  Stated for a region at any position of the batch, provided
the pass reaches it. -/
theorem C3_failure_aborts_batch (env : CvEnv) (s : ℚ) (pre post : List Polygon)
    (p : Polygon) (log0 : List UndoRec)
    (hsel : p.select_poly = true)
    (hpre : (tightBoxGo env s 0 pre log0).aborted = false)
    (hfail : extractionFails env pre.length) :
    (tight_box env s (pre ++ p :: post) log0).aborted = true ∧
      (tight_box env s (pre ++ p :: post) log0).polys
        = (tightBoxGo env s 0 pre log0).polys ++ p :: post ∧
      (tight_box env s (pre ++ p :: post) log0).log
        = (tightBoxGo env s 0 pre log0).log ++ [(pre.length, origPts s p)] := by
  have hstep : tightBoxStep env pre.length = StepOut.crash := by
    rcases hfail with h | ⟨cnts, hex, hempty⟩
    · simp [tightBoxStep, h]
    · simp [tightBoxStep, hex, hempty]
  unfold tight_box
  rw [tightBoxGo_append env s pre (p :: post) 0 log0, if_neg (by simp [hpre])]
  simp [Nat.zero_add, tightBoxGo, hsel, hstep]

/-- Claim C3, witness for the amended theorem: with no inner contours for
the first region, a two-region batch aborts at once, the second region
is never processed, and the undo record of the first is retained. -/
theorem C3_failure_witness :
    (tight_box envNoInner 1 ([] ++ demoPoly :: [demoPoly2]) []).aborted = true ∧
      (tight_box envNoInner 1 ([] ++ demoPoly :: [demoPoly2]) []).polys
        = (tightBoxGo envNoInner 1 0 [] []).polys ++ demoPoly :: [demoPoly2] ∧
      (tight_box envNoInner 1 ([] ++ demoPoly :: [demoPoly2]) []).log
        = (tightBoxGo envNoInner 1 0 [] []).log ++ [(0, origPts 1 demoPoly)] :=
  C3_failure_aborts_batch envNoInner 1 [] [demoPoly2] demoPoly []
    (by with_unfolding_all decide) (by with_unfolding_all decide)
    (Or.inr ⟨[outerContour], rfl, by with_unfolding_all decide⟩)

/-- Claim C3, counterexample to the claim as stated: the batch does
abort, the undo record of the empty region is retained, and the second
selected region is left unprocessed even though processing it alone
would have refined it. -/
theorem C3_abort_counterexample :
    (tight_box envNoInner 1 [demoPoly, demoPoly2] []).aborted = true ∧
      (tight_box envNoInner 1 [demoPoly, demoPoly2] []).polys[(1 : Nat)]? = some demoPoly2 ∧
      (tight_box envNoInner 1 [demoPoly, demoPoly2] []).log = [(0, origPts 1 demoPoly)] ∧
      (tightBoxGo envNoInner 1 1 [demoPoly2] []).polys ≠ [demoPoly2] := by
  with_unfolding_all decide

/-- Claim C4: the code behavior at a concrete refine-then-discard round
trip.  The discard restores the display points to the snapshot and
clears the undo log, but it never restores original_coords, so the
canonical points keep the refined rectangle instead of the
pre-refinement snapshot. -/
theorem C4_discard_keeps_refined_canonical :
    ((discard_tight_box 1 (tight_box envRefine 1 [demoPoly] []).polys
        (tight_box envRefine 1 [demoPoly] []).log).1.map (fun p => p.pt_coords)
      = [demoPoly.pt_coords]) ∧
    ((discard_tight_box 1 (tight_box envRefine 1 [demoPoly] []).polys
        (tight_box envRefine 1 [demoPoly] []).log).1.map (fun p => p.original_coords)
      ≠ [demoPoly.original_coords]) ∧
    ((tight_box envRefine 1 [demoPoly] []).log = [(0, origPts 1 demoPoly)]) ∧
    ((discard_tight_box 1 (tight_box envRefine 1 [demoPoly] []).polys
        (tight_box envRefine 1 [demoPoly] []).log).2 = []) := by
  with_unfolding_all decide

/-!
C10 support: the discard loop touches only positions recorded in the
undo log.
-/

theorem modifyIdx_getElem_ne (f : Polygon → Polygon) (j : Nat) (l : List Polygon) :
    ∀ i : Nat, j ≠ i → (modifyIdx f j l)[i]? = l[i]? := by
  induction l generalizing j with
  | nil => intro i _; cases j <;> rfl
  | cons a l ih =>
      intro i hj
      cases j with
      | zero =>
          cases i with
          | zero => exact absurd rfl hj
          | succ n => simp [modifyIdx]
      | succ m =>
          cases i with
          | zero => simp [modifyIdx]
          | succ n =>
              simp only [modifyIdx, List.getElem?_cons_succ]
              exact ih m n (fun h => hj (by rw [h]))

theorem discard_foldl_keeps_unlogged (s : ℚ) (log : List UndoRec) :
    ∀ (polys : List Polygon) (i : Nat), (∀ rec ∈ log, rec.1 ≠ i) →
      (log.foldl (fun ps rec => modifyIdx (restorePoly s rec.2) rec.1 ps) polys)[i]?
        = polys[i]? := by
  induction log with
  | nil => intro polys i _; rfl
  | cons rec log ih =>
      intro polys i h
      rw [List.foldl_cons, ih _ i (fun r hr => h r (List.mem_cons_of_mem rec hr))]
      exact modifyIdx_getElem_ne _ _ polys i (h rec (List.mem_cons_self rec log))

/-- Claim C10: every make_tight call builds a fresh TightBox whose undo
log starts empty, so its result is independent of any previously held
refiner instance, and the following discard restores only the regions
recorded by this most recent call: any region index absent from the new
undo log keeps its coordinates across the discard. -/
theorem C10_fresh_refiner (e : CvEnv) (g : GuiState) (i : Nat)
    (h : ∀ rec ∈ (tight_box e g.canvas.scale_factor g.canvas.polygons []).log, rec.1 ≠ i) :
    (∀ tb : Option TB, make_tight e { g with tight_box_obj := tb } = make_tight e g) ∧
      (discard_tight (make_tight e g)).canvas.polygons[i]?
        = (make_tight e g).canvas.polygons[i]? := by
  constructor
  · intro tb
    rfl
  · show (discard_tight_box _ _ _).1[i]? = _
    unfold discard_tight_box
    exact discard_foldl_keeps_unlogged _ _ _ i h

/-- Claim C10, witness: with only the second region selected, the fresh
undo log records only index 1, and the discard after make_tight leaves
the region at index 0 untouched. -/
theorem C10_fresh_refiner_witness :
    (discard_tight (make_tight envRefine demoGui)).canvas.polygons[(0 : Nat)]?
      = (make_tight envRefine demoGui).canvas.polygons[(0 : Nat)]? :=
  (C10_fresh_refiner envRefine demoGui 0 (by with_unfolding_all decide)).2

/-!
C7 support: what save_json writes, and how it relates to the canonical
points.
-/

theorem pyFloor_intCast (n : ℤ) : pyFloor (n : ℚ) = n := by
  simp [pyFloor, Rat.num_intCast, Rat.den_intCast]

theorem pyInt_int_val (q : ℚ) (h : isIntQ q) : pyInt q = q.num := by
  unfold pyInt
  unfold isIntQ at h
  rw [h]
  simp

theorem floor_div_one_int (x : ℚ) (h : isIntQ x) :
    ((pyFloor ((pyInt (x * 1) : ℚ) / 1) : ℚ)) = x := by
  rw [mul_one, pyInt_int_val x h, div_one, pyFloor_intCast]
  exact (Rat.den_eq_one_iff x).mp h

/-- Claim C7, amended: every polygon written to a per-image snapshot is
the coordinatewise floor of display / scale_factor, computed from the
display points, not from the canonical points; at scale factor 1, when
the display points are derived from the canonical points, the written
polygons do equal the canonical points. -/
theorem C7_saved_from_display (c : Canvas) (base : String) (data : SnapshotData)
    (hw : save_json c = SaveResult.wrote base data) :
    data.polygons
        = (c.polygons.filter (fun p => !p.pt_coords.isEmpty)).map
            (fun p => p.pt_coords.map (fun q =>
              (pyFloor (q.1 / c.scale_factor), pyFloor (q.2 / c.scale_factor)))) ∧
      (c.scale_factor = 1 → Derived c →
        data.polygons.map intPairs
          = (c.polygons.filter (fun p => !p.pt_coords.isEmpty)).map
              (fun p => p.original_coords)) := by
  unfold save_json at hw
  dsimp only at hw
  split at hw
  · cases hw
  · split at hw
    · cases hw
    · injection hw with hbase hdata
      subst hdata
      have hpoly : ∀ s : ℚ, s = c.scale_factor →
          ((c.polygons.filter (fun p => !p.pt_coords.isEmpty)).map (fun p =>
            (p.pt_coords.map (fun q => (pyFloor (q.1 / s), pyFloor (q.2 / s))),
              pyOrStr p.text "", pyOrStr p.poly_type "words"))).map (fun e => e.1)
          = (c.polygons.filter (fun p => !p.pt_coords.isEmpty)).map
              (fun p => p.pt_coords.map (fun q =>
                (pyFloor (q.1 / s), pyFloor (q.2 / s)))) := by
        intro s _
        rw [List.map_map]
        rfl
      refine ⟨hpoly c.scale_factor rfl, ?_⟩
      intro hs hD
      rw [hpoly c.scale_factor rfl, List.map_map]
      apply List.map_congr_left
      intro p hp
      have hpmem : p ∈ c.polygons := (List.mem_filter.mp hp).1
      rcases hD p hpmem with ⟨hint, hdisp⟩
      rw [hs] at hdisp
      show intPairs (p.pt_coords.map (fun q =>
        (pyFloor (q.1 / c.scale_factor), pyFloor (q.2 / c.scale_factor)))) = p.original_coords
      rw [hs, hdisp]
      unfold displayFromCanonical intPairs
      rw [List.map_map, List.map_map]
      apply map_id_of_mem
      intro a ha
      rcases hint a ha with ⟨ha1, ha2⟩
      show ((pyFloor ((pyInt (a.1 * 1) : ℚ) / 1) : ℚ), (pyFloor ((pyInt (a.2 * 1) : ℚ) / 1) : ℚ))
        = a
      rw [floor_div_one_int a.1 ha1, floor_div_one_int a.2 ha2]

/-- Claim C7, witness for the amended theorem at a concrete session at
scale factor 1: the written polygons equal the canonical points. -/
theorem C7_saved_witness :
    ([[((1 : ℤ), (1 : ℤ)), (5, 1), (5, 5), (1, 5)]]).map intPairs
      = (demoCanvas.polygons.filter (fun p => !p.pt_coords.isEmpty)).map
          (fun p => p.original_coords) :=
  (C7_saved_from_display demoCanvas "img1.json"
      { img_dimensions := (10, 10), img_hash := "h1"
        polygons := [[(1, 1), (5, 1), (5, 5), (1, 5)]]
        labels := [""], types := ["words"] }
      (by with_unfolding_all decide)).2 rfl (by with_unfolding_all decide)

/-- Claim C7, counterexample to the claim as stated: after one zoom-out
the scale factor is 0.9, and the snapshot written for the session holds
the polygon [[0,0],[4,0],[4,4],[0,4]], which differs from the canonical
points [[1,1],[5,1],[5,5],[1,5]] of the only region: the snapshot is
computed from the truncated display points, not from the canonical
points. -/
theorem C7_canonical_counterexample :
    save_json (zoom demoBounds ZoomDir.zoomOut demoCanvas)
        = SaveResult.wrote "img1.json"
            { img_dimensions := (10, 10), img_hash := "h1"
              polygons := [[(0, 0), (4, 0), (4, 4), (0, 4)]]
              labels := [""], types := ["words"] } ∧
      ¬ ([[((0 : ℤ), (0 : ℤ)), (4, 0), (4, 4), (0, 4)]].map intPairs
          = (zoom demoBounds ZoomDir.zoomOut demoCanvas).polygons.map
              (fun p => p.original_coords)) := by
  with_unfolding_all decide

end DocTRLabeler
